import Mathlib

/-!
Verification development for the streaming chat relay
(Next.js route src/app/api/agent-stream/route.ts and the
client hook useSSEChat / processStreamingResponse).

Text is modelled as a list of characters; the streaming-safe
TextDecoder (decode with stream: true never splits a multi-byte
character across chunk boundaries) justifies working at the level
of decoded characters rather than raw bytes.
-/

set_option maxHeartbeats 1000000
set_option maxRecDepth 8000

namespace AgentRelay

/-- Decoded text: a list of Unicode characters. -/
abbrev Str := List Char

/-- Whitespace as recognised by JavaScript String.prototype.trim
(restricted to the ASCII whitespace characters that can occur in
this protocol). -/
def isJsWs (c : Char) : Bool :=
  c = ' ' || c = '\t' || c = '\n' || c = '\r' || c = '\x0b' || c = '\x0c'

/-- Model of JavaScript String.prototype.trim. -/
def jsTrim (s : Str) : Str :=
  ((s.dropWhile isJsWs).reverse.dropWhile isJsWs).reverse

/-- Model of String.prototype.startsWith: isPre pat s is true when
pat is an initial segment of s. -/
def isPre : Str → Str → Bool
  | [], _ => true
  | _ :: _, [] => false
  | c :: p, d :: s => c = d && isPre p s

theorem dropLast_cons2 {α : Type} (x : α) (l : List α) (h : l ≠ []) :
    (x :: l).dropLast = x :: l.dropLast := by
  cases l with
  | nil => exact absurd rfl h
  | cons y ys => rfl

theorem getLastD_irrel {α : Type} (l : List α) (h : l ≠ []) (d d' : α) :
    l.getLastD d = l.getLastD d' := by
  cases l with
  | nil => exact absurd rfl h
  | cons x xs => rw [List.getLastD_cons, List.getLastD_cons]

theorem getLastD_cons2 {α : Type} (x : α) (l : List α) (d : α) (h : l ≠ []) :
    (x :: l).getLastD d = l.getLastD d := by
  rw [List.getLastD_cons]
  exact getLastD_irrel l h x d

theorem dropLast_append2 {α : Type} (xs ys : List α) (h : ys ≠ []) :
    (xs ++ ys).dropLast = xs ++ ys.dropLast := by
  induction xs with
  | nil => rfl
  | cons x xs ih =>
    rw [List.cons_append, dropLast_cons2 x (xs ++ ys) (by simp [h]), ih, List.cons_append]

theorem getLastD_append2 {α : Type} (xs ys : List α) (d : α) (h : ys ≠ []) :
    (xs ++ ys).getLastD d = ys.getLastD d := by
  induction xs with
  | nil => rfl
  | cons x xs ih =>
    rw [List.cons_append, getLastD_cons2 x (xs ++ ys) d (by simp [h]), ih]

theorem getLastD_mem {α : Type} (l : List α) (d : α) (h : l ≠ []) : l.getLastD d ∈ l := by
  induction l generalizing d with
  | nil => exact absurd rfl h
  | cons x xs ih =>
    rw [List.getLastD_cons]
    cases hx : xs with
    | nil => simp [hx]
    | cons y ys => exact List.mem_cons_of_mem x (hx ▸ ih x (by simp [hx]))

/-- Attach a character to the front of the first segment of a
segment list (used to define splitting on newlines). -/
def consHead (c : Char) : List Str → List Str
  | [] => [[c]]
  | l :: ls => (c :: l) :: ls

/-- Model of String.prototype.split with separator a single newline:
splitNlAll s is the full list of '\n'-separated segments of s
(always non-empty; the last segment is the text after the final
newline, possibly empty). -/
def splitNlAll : Str → List Str
  | [] => [[]]
  | c :: cs => if c = '\n' then [] :: splitNlAll cs else consHead c (splitNlAll cs)

/-- The Line Reframer step, as implemented in processStreamingResponse
(buffer += decode(chunk); lines = buffer.split('\n'); buffer =
lines.pop() or the empty string) and, equivalently, by the
indexOf-based drain loop in streamFromAgentCore: all segments but the
last are the complete lines; the last segment is the new buffer. -/
def feed (buffer chunk : Str) : List Str × Str :=
  let lines := splitNlAll (buffer ++ chunk)
  (lines.dropLast, lines.getLastD [])

/-- Run the Line Reframer over a whole sequence of chunks, starting
from a given buffer, collecting all complete lines in order and
returning the final buffer. -/
def reframe (buffer : Str) : List Str → List Str × Str
  | [] => ([], buffer)
  | c :: cs =>
    let fd := feed buffer c
    let rest := reframe fd.2 cs
    (fd.1 ++ rest.1, rest.2)

theorem consHead_ne_nil (c : Char) (ls : List Str) : consHead c ls ≠ [] := by
  cases ls <;> simp [consHead]

theorem splitNlAll_ne_nil (s : Str) : splitNlAll s ≠ [] := by
  induction s with
  | nil => simp [splitNlAll]
  | cons c cs ih =>
    by_cases h : c = '\n' <;> simp [splitNlAll, h, consHead_ne_nil]

/-- Every segment produced by splitting on newlines is newline-free. -/
theorem splitNlAll_no_nl (s : Str) : ∀ l ∈ splitNlAll s, '\n' ∉ l := by
  induction s with
  | nil => intro l hl; simp [splitNlAll] at hl; simp [hl]
  | cons c cs ih =>
    intro l hl
    by_cases h : c = '\n'
    · simp [splitNlAll, h] at hl
      rcases hl with hl | hl
      · simp [hl]
      · exact ih l hl
    · rcases hA : splitNlAll cs with _ | ⟨a, as⟩
      · exact absurd hA (splitNlAll_ne_nil cs)
      · simp [splitNlAll, h, hA, consHead] at hl
        rcases hl with hl | hl
        · subst hl
          simp only [List.mem_cons, not_or]
          exact ⟨fun hc => h hc.symm,
                 fun hm => ih a (hA ▸ List.mem_cons_self a as) hm⟩
        · exact ih l (hA ▸ List.mem_cons_of_mem a hl)

/-- A newline-free string splits into the single segment equal to itself. -/
theorem splitNlAll_of_no_nl (s : Str) (h : '\n' ∉ s) : splitNlAll s = [s] := by
  induction s with
  | nil => simp [splitNlAll]
  | cons c cs ih =>
    have hc : c ≠ '\n' := fun hc => h (by simp [hc])
    have hcs : '\n' ∉ cs := fun hm => h (List.mem_cons_of_mem c hm)
    simp [splitNlAll, hc, ih hcs, consHead]

/-- Merge a pending segment into the head of a segment list. -/
def mergeHead (x : Str) : List Str → List Str
  | [] => [x]
  | y :: ys => (x ++ y) :: ys

/-- Splitting a concatenation: the segments of a ++ b are the complete
segments of a, then the last segment of a glued onto the first
segment of b, then the remaining segments of b. -/
theorem splitNlAll_append (a b : Str) :
    splitNlAll (a ++ b) =
      (splitNlAll a).dropLast ++ mergeHead ((splitNlAll a).getLastD []) (splitNlAll b) := by
  induction a with
  | nil =>
    rcases hB : splitNlAll b with _ | ⟨y, ys⟩
    · exact absurd hB (splitNlAll_ne_nil b)
    · simp [splitNlAll, mergeHead, hB]
  | cons c a ih =>
    by_cases h : c = '\n'
    · rcases hA : splitNlAll a with _ | ⟨l, ls⟩
      · exact absurd hA (splitNlAll_ne_nil a)
      · have stepL : splitNlAll (c :: (a ++ b)) = [] :: splitNlAll (a ++ b) := by
          simp [splitNlAll, h]
        have stepR : splitNlAll (c :: a) = [] :: l :: ls := by
          simp [splitNlAll, h, hA]
        rw [List.cons_append, stepL, stepR, ih, hA,
            dropLast_cons2 ([] : Str) (l :: ls) (by simp),
            getLastD_cons2 ([] : Str) (l :: ls) [] (by simp), List.cons_append]
    · rcases hA : splitNlAll a with _ | ⟨l, ls⟩
      · exact absurd hA (splitNlAll_ne_nil a)
      · rcases hAB : splitNlAll (a ++ b) with _ | ⟨m, ms⟩
        · exact absurd hAB (splitNlAll_ne_nil (a ++ b))
        · rcases hB : splitNlAll b with _ | ⟨y, ys⟩
          · exact absurd hB (splitNlAll_ne_nil b)
          · have stepL : splitNlAll (c :: (a ++ b)) = (c :: m) :: ms := by
              simp [splitNlAll, h, hAB, consHead]
            have stepR : splitNlAll (c :: a) = (c :: l) :: ls := by
              simp [splitNlAll, h, hA, consHead]
            rw [List.cons_append, stepL, stepR]
            rw [hA, hAB, hB] at ih
            rcases ls with _ | ⟨l2, ls2⟩
            · -- the head chunk splits into a single segment l
              simp only [List.dropLast_single, List.nil_append, mergeHead,
                List.getLastD_cons, List.getLastD_nil] at ih
              simp only [List.cons.injEq] at ih
              simp [mergeHead, ih.1, ih.2]
            · -- the head chunk splits into at least two segments
              have hne : (l2 :: ls2 : List Str) ≠ [] := by simp
              rw [dropLast_cons2 l (l2 :: ls2) hne,
                  getLastD_cons2 l (l2 :: ls2) [] hne] at ih
              rw [dropLast_cons2 (c :: l) (l2 :: ls2) hne,
                  getLastD_cons2 (c :: l) (l2 :: ls2) [] hne]
              rw [List.cons_append] at ih
              simp only [List.cons.injEq] at ih
              rw [List.cons_append, ih.1, ih.2]

/-- The main Line Reframer invariant, strengthened to an arbitrary
newline-free starting buffer: running the reframer over chunks is the
same as splitting the buffered text plus all chunk text at once. -/
theorem reframe_eq (cs : List Str) :
    ∀ b : Str, '\n' ∉ b →
      reframe b cs =
        ((splitNlAll (b ++ cs.flatten)).dropLast,
         (splitNlAll (b ++ cs.flatten)).getLastD []) := by
  induction cs with
  | nil =>
    intro b hb
    simp [reframe, splitNlAll_of_no_nl b hb]
  | cons c cs ih =>
    intro b hb
    have hlast : '\n' ∉ (splitNlAll (b ++ c)).getLastD [] :=
      splitNlAll_no_nl (b ++ c) _
        (getLastD_mem (splitNlAll (b ++ c)) [] (splitNlAll_ne_nil (b ++ c)))
    have hrec := ih ((splitNlAll (b ++ c)).getLastD []) hlast
    have key : splitNlAll (b ++ (c :: cs).flatten) =
        (splitNlAll (b ++ c)).dropLast ++
          splitNlAll ((splitNlAll (b ++ c)).getLastD [] ++ cs.flatten) := by
      have h1 : b ++ (c :: cs).flatten = (b ++ c) ++ cs.flatten := by
        simp [List.flatten_cons, List.append_assoc]
      rw [h1, splitNlAll_append (b ++ c) cs.flatten,
          splitNlAll_append ((splitNlAll (b ++ c)).getLastD []) cs.flatten,
          splitNlAll_of_no_nl _ hlast]
      simp [mergeHead]
    simp only [reframe, feed, hrec, key]
    refine Prod.ext ?_ ?_
    · exact (dropLast_append2 _ _ (splitNlAll_ne_nil _)).symm
    · exact (getLastD_append2 _ _ [] (splitNlAll_ne_nil _)).symm

/-!
A model of the JavaScript JSON values and of the platform builtins
JSON.parse / JSON.stringify, to the extent the relay exercises them:
objects (with later duplicate keys replacing the value at the first
occurrence position, as in JS), arrays, strings with the named escape
sequences, booleans, null, and numbers kept as their source lexeme
(the relay never computes with numbers, it only re-serialises values).
Unicode \u escapes and the leading-zero restriction on numbers are
outside the modelled subset.
-/

/-- Model of a JavaScript JSON value. -/
inductive Json where
  | str : Str → Json
  | num : Str → Json
  | bool : Bool → Json
  | null : Json
  | arr : List Json → Json
  | obj : List (Str × Json) → Json

/-- Whitespace accepted between JSON tokens. -/
def isJsonWs (c : Char) : Bool :=
  c = ' ' || c = '\t' || c = '\n' || c = '\r'

/-- Skip inter-token whitespace. -/
def skipWs (s : Str) : Str := s.dropWhile isJsonWs

/-- Decode a JSON string escape character. -/
def unescape (c : Char) : Option Char :=
  if c = '"' then some '"'
  else if c = '\\' then some '\\'
  else if c = '/' then some '/'
  else if c = 'n' then some '\n'
  else if c = 't' then some '\t'
  else if c = 'r' then some '\r'
  else if c = 'b' then some '\x08'
  else if c = 'f' then some '\x0c'
  else none

/-- Parse the body of a JSON string after the opening quote, up to and
including the closing quote; returns the decoded text and the rest. -/
def parseStrBody : Str → Option (Str × Str)
  | [] => none
  | '"' :: rest => some ([], rest)
  | '\\' :: rest =>
    match rest with
    | [] => none
    | c :: rest2 =>
      match unescape c with
      | none => none
      | some e =>
        match parseStrBody rest2 with
        | none => none
        | some (s, r) => some (e :: s, r)
  | c :: rest =>
    if c.toNat < 32 then none
    else
      match parseStrBody rest with
      | none => none
      | some (s, r) => some (c :: s, r)

/-- One or more decimal digits. -/
def digits1 (s : Str) : Option (Str × Str) :=
  let d := s.takeWhile Char.isDigit
  if d = [] then none else some (d, s.dropWhile Char.isDigit)

/-- Optional fraction part of a JSON number. -/
def parseFrac (s : Str) : Option (Str × Str) :=
  match s with
  | '.' :: r =>
    match digits1 r with
    | none => none
    | some (d, r2) => some ('.' :: d, r2)
  | _ => some ([], s)

/-- Optional exponent part of a JSON number. -/
def parseExp (s : Str) : Option (Str × Str) :=
  match s with
  | c :: r =>
    if c = 'e' || c = 'E' then
      let sr : Str × Str :=
        match r with
        | '+' :: r2 => (['+'], r2)
        | '-' :: r2 => (['-'], r2)
        | _ => ([], r)
      match digits1 sr.2 with
      | none => none
      | some (d, r3) => some (c :: (sr.1 ++ d), r3)
    else some ([], s)
  | [] => some ([], [])

/-- Lex a JSON number, keeping its lexeme. -/
def parseNum (s : Str) : Option (Str × Str) := do
  let ns : Str × Str :=
    match s with
    | '-' :: r => (['-'], r)
    | _ => ([], s)
  let (i, s2) ← digits1 ns.2
  let (f, s3) ← parseFrac s2
  let (e, s4) ← parseExp s3
  some (ns.1 ++ i ++ f ++ e, s4)

/-- Insert a parsed object member with the JS duplicate-key rule:
a later duplicate replaces the value kept at the first occurrence. -/
def insertField (fs : List (Str × Json)) (k : Str) (v : Json) : List (Str × Json) :=
  match fs with
  | [] => [(k, v)]
  | (k', v') :: rest => if k' = k then (k', v) :: rest else (k', v') :: insertField rest k v

mutual

/-- Fueled recursive-descent value parser modelling JSON.parse. -/
def parseVal : Nat → Str → Option (Json × Str)
  | 0, _ => none
  | fuel + 1, s =>
    match skipWs s with
    | [] => none
    | c :: r =>
      if c = '"' then
        match parseStrBody r with
        | none => none
        | some (sv, rest) => some (Json.str sv, rest)
      else if c = '\x7b' then
        match skipWs r with
        | '\x7d' :: rest => some (Json.obj [], rest)
        | _ => parseMembers fuel r []
      else if c = '[' then
        match skipWs r with
        | ']' :: rest => some (Json.arr [], rest)
        | _ => parseItems fuel r []
      else if isPre ['t','r','u','e'] (c :: r) then some (Json.bool true, (c :: r).drop 4)
      else if isPre ['f','a','l','s','e'] (c :: r) then some (Json.bool false, (c :: r).drop 5)
      else if isPre ['n','u','l','l'] (c :: r) then some (Json.null, (c :: r).drop 4)
      else
        match parseNum (c :: r) with
        | none => none
        | some (lx, rest) => some (Json.num lx, rest)

/-- Parse the members of a JSON object after the opening brace. -/
def parseMembers : Nat → Str → List (Str × Json) → Option (Json × Str)
  | 0, _, _ => none
  | fuel + 1, s, fs =>
    match skipWs s with
    | '"' :: r =>
      match parseStrBody r with
      | none => none
      | some (k, rest) =>
        match skipWs rest with
        | ':' :: rest2 =>
          match parseVal fuel rest2 with
          | none => none
          | some (v, rest3) =>
            match skipWs rest3 with
            | ',' :: rest4 => parseMembers fuel rest4 (insertField fs k v)
            | '\x7d' :: rest4 => some (Json.obj (insertField fs k v), rest4)
            | _ => none
        | _ => none
    | _ => none

/-- Parse the items of a JSON array after the opening bracket. -/
def parseItems : Nat → Str → List Json → Option (Json × Str)
  | 0, _, _ => none
  | fuel + 1, s, items =>
    match parseVal fuel s with
    | none => none
    | some (v, rest) =>
      match skipWs rest with
      | ',' :: rest2 => parseItems fuel rest2 (items ++ [v])
      | ']' :: rest2 => some (Json.arr (items ++ [v]), rest2)
      | _ => none

end

/-- Model of JSON.parse: a complete JSON text with surrounding
whitespace allowed; trailing non-whitespace rejects the input. -/
def jsonParse (s : Str) : Option Json :=
  match parseVal (2 * s.length + 2) s with
  | none => none
  | some (v, rest) => if skipWs rest = [] then some v else none

/-- Escape one character for JSON string output. -/
def escChar (c : Char) : Str :=
  if c = '"' then ['\\', '"']
  else if c = '\\' then ['\\', '\\']
  else if c = '\n' then ['\\', 'n']
  else if c = '\t' then ['\\', 't']
  else if c = '\r' then ['\\', 'r']
  else if c = '\x08' then ['\\', 'b']
  else if c = '\x0c' then ['\\', 'f']
  else [c]

/-- Serialise a JSON string literal, quotes included. -/
def escStr (s : Str) : Str := '"' :: ((s.map escChar).flatten ++ ['"'])

mutual

/-- Model of JSON.stringify with no indentation (object member order
is insertion order, as in JS). -/
def stringify : Json → Str
  | Json.str s => escStr s
  | Json.num lx => lx
  | Json.bool true => ['t','r','u','e']
  | Json.bool false => ['f','a','l','s','e']
  | Json.null => ['n','u','l','l']
  | Json.arr items => '[' :: (stringifyItems items ++ [']'])
  | Json.obj fs => '\x7b' :: (stringifyFields fs ++ ['\x7d'])

/-- Serialise array items, comma separated. -/
def stringifyItems : List Json → Str
  | [] => []
  | [j] => stringify j
  | j :: rest => stringify j ++ ',' :: stringifyItems rest

/-- Serialise object members, comma separated. -/
def stringifyFields : List (Str × Json) → Str
  | [] => []
  | [(k, v)] => escStr k ++ ':' :: stringify v
  | (k, v) :: rest => escStr k ++ ':' :: stringify v ++ ',' :: stringifyFields rest

end

/-- Look up an object member by key (first occurrence). -/
def lookupField (fs : List (Str × Json)) (k : Str) : Option Json :=
  match fs with
  | [] => none
  | (k', v) :: rest => if k' = k then some v else lookupField rest k

/-!
Model of streamFromAgentCore (src/app/api/agent-stream/route.ts).
The downstream ReadableStream controller and the isClosed guard of
streamFromAgentCore are combined into one state record; the
environment decides, through a schedule, whether a controller.enqueue
invocation throws (as it does when the client has disconnected).
-/

/-- Downstream controller state together with the isClosed guard.
output records the frames the controller accepted; closeCalls counts
controller.close invocations; enqueueAttempts counts
controller.enqueue invocations; enqueueFail is the schedule of
enqueue failures (head = whether the next attempted enqueue throws;
an exhausted schedule means enqueues succeed). -/
structure RelayState where
  isClosed : Bool
  closeCalls : Nat
  enqueueAttempts : Nat
  output : List Str
  enqueueFail : List Bool
deriving DecidableEq

/-- Fresh state at the start of a request, with a given schedule of
enqueue failures. -/
def initState (sched : List Bool) : RelayState :=
  { isClosed := false, closeCalls := 0, enqueueAttempts := 0,
    output := [], enqueueFail := sched }

/-- Model of safeClose: invoke controller.close only when the state is
not yet marked closed; any throw from controller.close is caught and
swallowed. -/
def safeClose (st : RelayState) : RelayState :=
  if st.isClosed then st
  else { st with isClosed := true, closeCalls := st.closeCalls + 1 }

/-- Model of safeEnqueue: skip entirely when the state is marked
closed; otherwise attempt controller.enqueue and, when it throws,
swallow the error and mark the state closed so later writes are
skipped without being attempted. -/
def safeEnqueue (st : RelayState) (d : Str) : RelayState :=
  if st.isClosed then st
  else
    let fails := st.enqueueFail.headD false
    let st' := { st with enqueueAttempts := st.enqueueAttempts + 1,
                         enqueueFail := st.enqueueFail.tail }
    if fails then { st' with isClosed := true }
    else { st' with output := st'.output ++ [d] }

/-- The literal prefix of an SSE data line. -/
def dataPre : Str := "data: ".toList

/-- The sentinel payload. -/
def doneLit : Str := "[DONE]".toList

/-- An SSE frame as written downstream: data: JSON text, two
newlines. -/
def sseFrame (j : Json) : Str := dataPre ++ stringify j ++ "\n\n".toList

/-- The canonical text-delta event shape built by the route for plain
text (and for its hard-coded test and error messages). -/
def textDeltaEvent (t : Str) : Json :=
  Json.obj [("event".toList, Json.obj [("contentBlockDelta".toList,
    Json.obj [("delta".toList, Json.obj [("text".toList, Json.str t)])])])]

/-- The loop body of streamFromAgentCore for one complete, already
trimmed line; the Bool is true when the function returned (the
data: [DONE] sentinel path). -/
def processLine (st : RelayState) (line : Str) : RelayState × Bool :=
  if line = [] ∨ st.isClosed = true then (st, false)
  else if isPre dataPre line then
    let data := jsTrim (line.drop 6)
    if data = doneLit then (safeClose st, true)
    else
      match jsonParse data with
      | some parsed => (safeEnqueue st (sseFrame parsed), false)
      | none => (st, false)
  else
    match jsonParse line with
    | some parsed => (safeEnqueue st (sseFrame parsed), false)
    | none =>
      if jsTrim line ≠ [] then (safeEnqueue st (sseFrame (textDeltaEvent line)), false)
      else (st, false)

/-- Drain the queue of complete lines in order, stopping early when a
line took the sentinel return path. -/
def processLines (st : RelayState) : List Str → RelayState × Bool
  | [] => (st, false)
  | l :: ls =>
    let r := processLine st l
    if r.2 then (r.1, true) else processLines r.1 ls

/-- Handle one decoded chunk: append it to the buffer, split off the
complete lines (each trimmed on extraction, as in the indexOf drain
loop), process them in order, and keep the trailing segment as the
new buffer. -/
def relayChunk (st : RelayState) (buffer chunk : Str) : RelayState × Str × Bool :=
  let fd := feed buffer chunk
  let pr := processLines st (fd.1.map jsTrim)
  (pr.1, fd.2, pr.2)

/-- The while (not isClosed) read loop over the decoded chunks of the
upstream body; stops when the chunks are exhausted, the state became
closed, or the sentinel path returned. -/
def relayChunks (st : RelayState) (buffer : Str) : List Str → RelayState × Str × Bool
  | [] => (st, buffer, false)
  | c :: cs =>
    if st.isClosed then (st, buffer, false)
    else
      let r := relayChunk st buffer c
      if r.2.2 then (r.1, r.2.1, true)
      else relayChunks r.1 r.2.1 cs

/-- Behaviour of the upstream body reader: the decoded chunks it
yields, and whether reading then fails with an error (readError)
instead of reporting a clean end of stream. -/
structure Upstream where
  chunks : List Str
  readError : Bool
  readErrorMsg : Str
deriving DecidableEq

/-- Result of one streamFromAgentCore invocation: the final
controller state, whether the reader lock was released, and the
message of the error rethrown from the catch block, if any. -/
structure RelayResult where
  st : RelayState
  readerReleased : Bool
  thrown : Option Str
deriving DecidableEq

/-- Model of streamFromAgentCore from the point where the reader was
acquired: the read loop, the final-buffer flush, the closing
safeClose, and the catch block, which is the only place that releases
the reader lock (releaseLock then rethrow). -/
def relayReadLoop (st0 : RelayState) (u : Upstream) : RelayResult :=
  let r := relayChunks st0 [] u.chunks
  if r.2.2 then
    -- the data: [DONE] path returned from inside the loop
    { st := r.1, readerReleased := false, thrown := none }
  else if u.readError = true ∧ r.1.isClosed = false then
    -- the pending read rejects; the catch releases the reader and rethrows
    { st := r.1, readerReleased := true, thrown := some u.readErrorMsg }
  else
    -- clean end of stream (or the loop stopped because the state is
    -- closed): flush the remaining buffer, then safeClose
    let st1 :=
      if jsTrim r.2.1 ≠ [] ∧ r.1.isClosed = false then
        match jsonParse r.2.1 with
        | some parsed => safeEnqueue r.1 (sseFrame parsed)
        | none => r.1
      else r.1
    { st := safeClose st1, readerReleased := false, thrown := none }

/-- Outcome of the fetch to the AgentCore endpoint, as observed by
streamFromAgentCore before any streaming starts. -/
inductive UpstreamConn where
  | netError (msg : Str)
  | httpError (status : Str) (statusText : Str) (body : Str)
  | noBody
  | ok (u : Upstream)

/-- Model of streamFromAgentCore including the pre-loop failure
paths; on those paths no reader was acquired, so none is released,
and the synthesized error message is rethrown to the caller. -/
def streamFromAgentCore (st0 : RelayState) (conn : UpstreamConn) : RelayResult :=
  match conn with
  | UpstreamConn.netError msg =>
    { st := st0, readerReleased := false,
      thrown := some ("Network error: ".toList ++ msg) }
  | UpstreamConn.httpError status statusText body =>
    { st := st0, readerReleased := false,
      thrown := some ("AgentCore returned ".toList ++ status ++ ": ".toList ++
                      statusText ++ " - ".toList ++ body) }
  | UpstreamConn.noBody =>
    { st := st0, readerReleased := false,
      thrown := some ("No response body from AgentCore".toList) }
  | UpstreamConn.ok u => relayReadLoop st0 u

/-- Unguarded controller.enqueue as invoked directly by the POST
handler (outside safeEnqueue); the Bool is true when it threw. -/
def enqueueDirect (st : RelayState) (d : Str) : RelayState × Bool :=
  let fails := st.enqueueFail.headD false
  let st' := { st with enqueueAttempts := st.enqueueAttempts + 1,
                       enqueueFail := st.enqueueFail.tail }
  if fails then (st', true)
  else ({ st' with output := st'.output ++ [d] }, false)

/-- Unguarded controller.close as invoked directly by the POST
handler's catch block. -/
def closeDirect (st : RelayState) : RelayState :=
  { st with isClosed := true, closeCalls := st.closeCalls + 1 }

/-- The hard-coded first test event of the POST handler. -/
def testFrame : Str :=
  sseFrame (textDeltaEvent ("🔧 Testing connection to AgentCore... ".toList))

/-- The error event synthesized by the POST handler's catch block. -/
def postErrFrame (msg : Str) : Str :=
  sseFrame (textDeltaEvent ("❌ AgentCore Error: ".toList ++ msg))

/-- Model of the POST handler's ReadableStream start callback for a
request that passed token and prompt validation: enqueue the test
event, run streamFromAgentCore, and convert a thrown error into one
error event plus a close (both swallowed if the controller throws). -/
def postRun (sched : List Bool) (conn : UpstreamConn) : RelayState :=
  let e0 := enqueueDirect (initState sched) testFrame
  if e0.2 then e0.1
  else
    let r := streamFromAgentCore e0.1 conn
    match r.thrown with
    | none => r.st
    | some msg =>
      let e1 := enqueueDirect r.st (postErrFrame msg)
      if e1.2 then e1.1
      else closeDirect e1.1

/-!
Model of the client-side stream consumer
(useSSEChat: extractDataFromLine, extractMessageContent,
processStreamingResponse, sendMessage).
-/

/-- Model of extractDataFromLine: the payload of a data: line, or
null for any other line. -/
def extractDataFromLine (line : Str) : Option Str :=
  if isPre dataPre line then some (jsTrim (line.drop 6)) else none

/-- Model of extractMessageContent: throws (Except.error) when the
parsed value has a truthy string error member; otherwise the nested
contentBlockDelta text when present and truthy, else null. -/
def extractMessageContent (parsed : Json) : Except Str (Option Str) :=
  let errField : Option Str :=
    match parsed with
    | Json.obj fs =>
      match lookupField fs ("error".toList) with
      | some (Json.str m) => if m = [] then none else some m
      | _ => none
    | _ => none
  match errField with
  | some m => Except.error m
  | none =>
    match parsed with
    | Json.obj fs =>
      match lookupField fs ("event".toList) with
      | some (Json.obj ev) =>
        match lookupField ev ("contentBlockDelta".toList) with
        | some (Json.obj cbd) =>
          match lookupField cbd ("delta".toList) with
          | some (Json.obj dl) =>
            match lookupField dl ("text".toList) with
            | some (Json.str t) => if t = [] then Except.ok none else Except.ok (some t)
            | _ => Except.ok none
          | _ => Except.ok none
        | _ => Except.ok none
      | _ => Except.ok none
    | _ => Except.ok none

/-- The per-line body of processStreamingResponse: skip blank lines
and non-data lines and empty payloads; parse the payload; the one
try/catch around JSON.parse and extractMessageContent ignores both a
parse failure and an error thrown by extractMessageContent; truthy
content is appended to the accumulated message. -/
def clientProcessLine (cur : Str) (line : Str) : Str :=
  if jsTrim line = [] then cur
  else
    match extractDataFromLine line with
    | none => cur
    | some data =>
      if data = [] then cur
      else
        match jsonParse data with
        | none => cur
        | some parsed =>
          match extractMessageContent parsed with
          | Except.error _ => cur
          | Except.ok none => cur
          | Except.ok (some t) => cur ++ t

/-- The read loop of processStreamingResponse: decode chunks, reframe
into lines, process each complete line; the final buffer is dropped
and the accumulated message is handed to onComplete. -/
def clientChunks (cur : Str) (buffer : Str) : List Str → Str
  | [] => cur
  | c :: cs =>
    let fd := feed buffer c
    let cur2 := fd.1.foldl clientProcessLine cur
    clientChunks cur2 fd.2 cs

/-- The message accumulated by the client over a whole downstream
body delivered as the given chunks. -/
def clientRun (chunks : List Str) : Str := clientChunks [] [] chunks

/-- Outcome of one client fetch attempt: a thrown network error or a
thrown non-ok HTTP status (both reach the same catch), or a streamed
body. -/
inductive AttemptOutcome where
  | failure (msg : Str)
  | success (chunks : List Str)

/-- Observable trace of one sendMessage invocation: the prompt used
by each fetch attempt in order, the backoff delays of the scheduled
retries in order, the terminal UI error state if set, and the final
accumulated message when streaming succeeded. -/
structure SendTrace where
  prompts : List Str
  delays : List Nat
  errorState : Option Str
  finalMessage : Option Str
deriving DecidableEq

/-- Model of sendMessage's retry loop: on a thrown fetch failure,
when retryCount is below maxRetries, schedule exactly one retry of
the same prompt after retryDelay * 2 ^ retryCount milliseconds;
otherwise set the terminal error state. -/
def sendMessage (maxRetries retryDelay : Nat) (outcome : Nat → AttemptOutcome)
    (prompt : Str) (retryCount : Nat) : SendTrace :=
  match outcome retryCount with
  | AttemptOutcome.success chunks =>
    { prompts := [prompt], delays := [], errorState := none,
      finalMessage := some (clientRun chunks) }
  | AttemptOutcome.failure msg =>
    if retryCount < maxRetries then
      let rest := sendMessage maxRetries retryDelay outcome prompt (retryCount + 1)
      { prompts := prompt :: rest.prompts,
        delays := retryDelay * 2 ^ retryCount :: rest.delays,
        errorState := rest.errorState,
        finalMessage := rest.finalMessage }
    else
      { prompts := [prompt], delays := [],
        errorState := some ("Communication error: ".toList ++ msg),
        finalMessage := none }
termination_by maxRetries - retryCount
decreasing_by omega

/-- The upstream body of the specified end-to-end exchange: two text
deltas then the sentinel. -/
def sampleUpstream : Str :=
  ("data: \x7b\"event\":\x7b\"contentBlockDelta\":\x7b\"delta\":\x7b\"text\":\"Hi\"\x7d\x7d\x7d\x7d\n\n" ++
   "data: \x7b\"event\":\x7b\"contentBlockDelta\":\x7b\"delta\":\x7b\"text\":\" there\"\x7d\x7d\x7d\x7d\n\n" ++
   "data: [DONE]\n\n").toList

/-- The server-side downstream state for that exchange (valid tokens
and prompt, upstream delivering the sample body, no client
disconnect). -/
def e2eServer : RelayState := postRun [] (UpstreamConn.ok ⟨[sampleUpstream], false, []⟩)

/-- The message the client accumulates over that downstream body. -/
def e2eAccum : Str := clientRun e2eServer.output

/-!
Supporting lemmas: the downstream output only ever grows by
appending at the end, and the controller is closed at most once.
-/

theorem safeClose_output (st : RelayState) : (safeClose st).output = st.output := by
  unfold safeClose; split <;> rfl

theorem safeClose_isClosed (st : RelayState) : (safeClose st).isClosed = true := by
  unfold safeClose
  split
  · assumption
  · rfl

theorem safeEnqueue_closeCalls (st : RelayState) (d : Str) :
    (safeEnqueue st d).closeCalls = st.closeCalls := by
  simp only [safeEnqueue]; split
  · rfl
  · split <;> rfl

/-- Every branch of the line-processing step leaves the state alone,
safe-closes it, or safe-enqueues one frame. -/
theorem processLine_shape (st : RelayState) (l : Str) :
    (processLine st l).1 = st ∨ (processLine st l).1 = safeClose st ∨
      ∃ d, (processLine st l).1 = safeEnqueue st d := by
  simp only [processLine]
  repeat' split
  all_goals first
    | exact Or.inl rfl
    | exact Or.inr (Or.inl rfl)
    | exact Or.inr (Or.inr ⟨_, rfl⟩)

/-- The second state's output extends the first state's output. -/
def OutExt (s t : RelayState) : Prop := ∃ d, t.output = s.output ++ d

theorem outExt_refl (s : RelayState) : OutExt s s := ⟨[], by simp⟩

theorem outExt_trans {s t u : RelayState} (h1 : OutExt s t) (h2 : OutExt t u) :
    OutExt s u := by
  obtain ⟨d1, h1⟩ := h1
  obtain ⟨d2, h2⟩ := h2
  exact ⟨d1 ++ d2, by rw [h2, h1, List.append_assoc]⟩

theorem outExt_safeClose (s : RelayState) : OutExt s (safeClose s) :=
  ⟨[], by rw [safeClose_output]; simp⟩

theorem outExt_safeEnqueue (s : RelayState) (d : Str) : OutExt s (safeEnqueue s d) := by
  simp only [safeEnqueue]
  split
  · exact outExt_refl s
  · split
    · exact ⟨[], by simp⟩
    · exact ⟨[d], rfl⟩

theorem outExt_processLine (s : RelayState) (l : Str) : OutExt s (processLine s l).1 := by
  rcases processLine_shape s l with hs | hs | ⟨d, hs⟩ <;> rw [hs]
  · exact outExt_refl s
  · exact outExt_safeClose s
  · exact outExt_safeEnqueue s d

theorem outExt_processLines (s : RelayState) (ls : List Str) :
    OutExt s (processLines s ls).1 := by
  induction ls generalizing s with
  | nil => exact outExt_refl s
  | cons l ls ih =>
    simp only [processLines]
    split
    · exact outExt_processLine s l
    · exact outExt_trans (outExt_processLine s l) (ih (processLine s l).1)

theorem outExt_relayChunk (s : RelayState) (buffer chunk : Str) :
    OutExt s (relayChunk s buffer chunk).1 :=
  outExt_processLines s _

theorem outExt_relayChunks (cs : List Str) (s : RelayState) (buffer : Str) :
    OutExt s (relayChunks s buffer cs).1 := by
  induction cs generalizing s buffer with
  | nil => exact outExt_refl s
  | cons c cs ih =>
    simp only [relayChunks]
    split
    · exact outExt_refl s
    · split
      · exact outExt_relayChunk s buffer c
      · exact outExt_trans (outExt_relayChunk s buffer c) (ih _ _)

theorem outExt_relayReadLoop (s : RelayState) (u : Upstream) :
    OutExt s (relayReadLoop s u).st := by
  simp only [relayReadLoop]
  split
  · exact outExt_relayChunks u.chunks s []
  · split
    · exact outExt_relayChunks u.chunks s []
    · refine outExt_trans (outExt_relayChunks u.chunks s []) ?_
      refine outExt_trans ?_ (outExt_safeClose _)
      split
      · split
        · exact outExt_safeEnqueue _ _
        · exact outExt_refl _
      · exact outExt_refl _

theorem outExt_streamFromAgentCore (s : RelayState) (conn : UpstreamConn) :
    OutExt s (streamFromAgentCore s conn).st := by
  cases conn with
  | netError msg => exact outExt_refl s
  | httpError a b c => exact outExt_refl s
  | noBody => exact outExt_refl s
  | ok u => exact outExt_relayReadLoop s u

theorem outExt_enqueueDirect (s : RelayState) (d : Str) :
    OutExt s (enqueueDirect s d).1 := by
  simp only [enqueueDirect]
  split
  · exact ⟨[], by simp⟩
  · exact ⟨[d], rfl⟩

theorem outExt_closeDirect (s : RelayState) : OutExt s (closeDirect s) := ⟨[], by simp [closeDirect]⟩

/-- Close-at-most-once invariant of a relay state. -/
def CloseInv (st : RelayState) : Prop :=
  st.closeCalls ≤ 1 ∧ (st.isClosed = false → st.closeCalls = 0)

theorem closeInv_init (sched : List Bool) : CloseInv (initState sched) :=
  ⟨by simp [initState], fun _ => rfl⟩

theorem closeInv_safeClose {st : RelayState} (h : CloseInv st) : CloseInv (safeClose st) := by
  unfold safeClose
  split
  · exact h
  · rename_i hc
    have hc' : st.isClosed = false := by simpa using hc
    exact ⟨by simp [h.2 hc'], fun hf => by simp at hf⟩

theorem closeInv_safeEnqueue {st : RelayState} (h : CloseInv st) (d : Str) :
    CloseInv (safeEnqueue st d) := by
  simp only [safeEnqueue]
  split
  · exact h
  · rename_i hc
    have hc' : st.isClosed = false := by simpa using hc
    split
    · exact ⟨h.1, fun hf => by simp at hf⟩
    · exact ⟨h.1, fun _ => h.2 hc'⟩

theorem closeInv_processLine {st : RelayState} (h : CloseInv st) (l : Str) :
    CloseInv (processLine st l).1 := by
  rcases processLine_shape st l with hs | hs | ⟨d, hs⟩ <;> rw [hs]
  · exact h
  · exact closeInv_safeClose h
  · exact closeInv_safeEnqueue h d

theorem closeInv_processLines {st : RelayState} (h : CloseInv st) (ls : List Str) :
    CloseInv (processLines st ls).1 := by
  induction ls generalizing st with
  | nil => exact h
  | cons l ls ih =>
    simp only [processLines]
    split
    · exact closeInv_processLine h l
    · exact ih (closeInv_processLine h l)

theorem closeInv_relayChunks (cs : List Str) {st : RelayState} (h : CloseInv st)
    (buffer : Str) : CloseInv (relayChunks st buffer cs).1 := by
  induction cs generalizing st buffer with
  | nil => exact h
  | cons c cs ih =>
    simp only [relayChunks]
    split
    · exact h
    · split
      · exact closeInv_processLines h _
      · exact ih (closeInv_processLines h _) _

theorem closeInv_relayReadLoop {st : RelayState} (h : CloseInv st) (u : Upstream) :
    CloseInv (relayReadLoop st u).st := by
  simp only [relayReadLoop]
  split
  · exact closeInv_relayChunks u.chunks h []
  · split
    · exact closeInv_relayChunks u.chunks h []
    · refine closeInv_safeClose ?_
      split
      · split
        · exact closeInv_safeEnqueue (closeInv_relayChunks u.chunks h []) _
        · exact closeInv_relayChunks u.chunks h []
      · exact closeInv_relayChunks u.chunks h []

theorem closeInv_streamFromAgentCore {st : RelayState} (h : CloseInv st)
    (conn : UpstreamConn) : CloseInv (streamFromAgentCore st conn).st := by
  cases conn with
  | netError msg => exact h
  | httpError a b c => exact h
  | noBody => exact h
  | ok u => exact closeInv_relayReadLoop h u

/-!
The claims.
-/

/-- C1: for every finite sequence of decoded chunks, the
line-reframing loop (append chunk to buffer, split off complete lines
at newline, keep the trailing segment as the new buffer) yields
exactly the ordered complete lines of the concatenated text — all
segments of splitting the whole text on newline except the last,
which remains as the final buffer — regardless of how the text was
partitioned into chunks. -/
theorem c1_reframe_chunk_invariance (chunks : List Str) :
    reframe [] chunks =
      ((splitNlAll chunks.flatten).dropLast,
       (splitNlAll chunks.flatten).getLastD []) := by
  have h := reframe_eq chunks [] (by simp)
  simpa using h

/-- C1 witness: a concrete partition of a text into two chunks. -/
theorem c1_reframe_chunk_invariance_witness :
    reframe [] ["ab\nc".toList, "d\n".toList] =
      ((splitNlAll (["ab\nc".toList, "d\n".toList] : List Str).flatten).dropLast,
       (splitNlAll (["ab\nc".toList, "d\n".toList] : List Str).flatten).getLastD []) :=
  c1_reframe_chunk_invariance ["ab\nc".toList, "d\n".toList]

/-- C2: when the relay processes a data:-prefixed line whose payload
trims to the [DONE] sentinel while the stream is still open, it
safe-closes the downstream stream and returns immediately: the
remaining buffered complete lines are never processed, no further
event is emitted (the output is unchanged, in particular the sentinel
line itself is not forwarded), and the state is closed. -/
theorem c2_done_sentinel (st : RelayState) (l : Str) (rest : List Str)
    (hopen : st.isClosed = false)
    (hpre : isPre dataPre l = true)
    (hdone : jsTrim (l.drop 6) = doneLit) :
    processLines st (l :: rest) = (safeClose st, true) ∧
    (safeClose st).output = st.output ∧
    (safeClose st).isClosed = true := by
  have hne : l ≠ [] := by
    intro h
    subst h
    simp [isPre, dataPre] at hpre
  have h1 : processLine st l = (safeClose st, true) := by
    simp [processLine, hne, hopen, hpre, hdone]
  refine ⟨?_, safeClose_output st, safeClose_isClosed st⟩
  simp [processLines, h1]

/-- C2 witness: the sentinel line with one more buffered line. -/
theorem c2_done_sentinel_witness :
    (initState []).isClosed = false ∧
    isPre dataPre ("data: [DONE]".toList) = true ∧
    jsTrim (("data: [DONE]".toList).drop 6) = doneLit ∧
    (processLines (initState []) ["data: [DONE]".toList, "data: x".toList] =
        (safeClose (initState []), true) ∧
      (safeClose (initState [])).output = (initState []).output ∧
      (safeClose (initState [])).isClosed = true) :=
  ⟨rfl, by decide, by decide,
   c2_done_sentinel (initState []) ("data: [DONE]".toList) ["data: x".toList]
     rfl (by decide) (by decide)⟩

/-- C3: the downstream close is idempotent (a second safeClose is a
no-op, with no second close side effect); a write to a sink already
marked closed is skipped without being attempted; a failed write
swallows the error, emits nothing and marks the state closed; and a
whole relay execution calls controller.close at most once. -/
theorem c3_close_idempotent_write_guard :
    (∀ st : RelayState, safeClose (safeClose st) = safeClose st) ∧
    (∀ (st : RelayState) (d : Str), st.isClosed = true →
       safeEnqueue st d = st ∧
       (safeEnqueue st d).enqueueAttempts = st.enqueueAttempts) ∧
    (∀ (st : RelayState) (d : Str), st.isClosed = false →
       st.enqueueFail.headD false = true →
       (safeEnqueue st d).isClosed = true ∧
       (safeEnqueue st d).output = st.output) ∧
    (∀ (sched : List Bool) (conn : UpstreamConn),
       (streamFromAgentCore (initState sched) conn).st.closeCalls ≤ 1) := by
  have closed_noop : ∀ s : RelayState, s.isClosed = true → safeClose s = s := by
    intro s h
    simp [safeClose, h]
  refine ⟨?_, ?_, ?_, ?_⟩
  · intro st
    exact closed_noop (safeClose st) (safeClose_isClosed st)
  · intro st d h
    constructor
    · simp [safeEnqueue, h]
    · simp [safeEnqueue, h]
  · intro st d hopen hfail
    have hfail' : st.enqueueFail.head?.getD false = true := by
      simpa [List.headD_eq_head?_getD] using hfail
    constructor
    · simp [safeEnqueue, hopen, hfail']
    · simp [safeEnqueue, hopen, hfail']
  · intro sched conn
    exact (closeInv_streamFromAgentCore (closeInv_init sched) conn).1

/-- C3 witness: the conjuncts at concrete states. -/
theorem c3_close_idempotent_write_guard_witness :
    safeClose (safeClose (initState [])) = safeClose (initState []) ∧
    (safeEnqueue (safeClose (initState [])) ("x".toList) = safeClose (initState []) ∧
      (safeEnqueue (safeClose (initState [])) ("x".toList)).enqueueAttempts =
        (safeClose (initState [])).enqueueAttempts) ∧
    ((safeEnqueue (initState [true]) ("x".toList)).isClosed = true ∧
      (safeEnqueue (initState [true]) ("x".toList)).output = (initState [true]).output) ∧
    (streamFromAgentCore (initState [])
        (UpstreamConn.ok ⟨["data: [DONE]\n".toList], false, []⟩)).st.closeCalls ≤ 1 :=
  ⟨c3_close_idempotent_write_guard.1 (initState []),
   c3_close_idempotent_write_guard.2.1 (safeClose (initState [])) ("x".toList) rfl,
   c3_close_idempotent_write_guard.2.2.1 (initState [true]) ("x".toList) rfl rfl,
   c3_close_idempotent_write_guard.2.2.2 []
     (UpstreamConn.ok ⟨["data: [DONE]\n".toList], false, []⟩)⟩

/-- C5 counterexample: for an upstream body consisting of a bare JSON
line with a string error member followed by a plain-text line, the
relay forwards the error object as an ordinary frame and keeps
emitting — a further event follows the error event, and the stream is
not closed at that point, only at end of stream. The claimed
exactly-one-terminal-error-event-then-close behaviour does not hold
on the relay. -/
theorem c5_error_event_counterexample :
    (relayReadLoop (initState [])
        ⟨[("\x7b\"error\":\"X\"\x7d\nhello\n").toList], false, []⟩).st.output =
      [sseFrame (Json.obj [("error".toList, Json.str ("X".toList))]),
       sseFrame (textDeltaEvent ("hello".toList))] ∧
    sseFrame (textDeltaEvent ("hello".toList)) ≠
      sseFrame (Json.obj [("error".toList, Json.str ("X".toList))]) :=
  ⟨rfl, by decide⟩

/-- C5 amended: a processed line whose JSON (bare, or as the payload
of a data: line) parses to an object with a string error member is
forwarded downstream unchanged as one ordinary canonical frame; the
relay performs no error-specific handling for it — it does not close
the stream (closeCalls unchanged) and does not stop processing. -/
theorem c5_error_line_forwarded :
    (∀ (st : RelayState) (l : Str) (fs : List (Str × Json)) (m : Str),
       st.isClosed = false → l ≠ [] → isPre dataPre l = false →
       jsonParse l = some (Json.obj fs) →
       lookupField fs ("error".toList) = some (Json.str m) →
       processLine st l = (safeEnqueue st (sseFrame (Json.obj fs)), false) ∧
       (processLine st l).1.closeCalls = st.closeCalls) ∧
    (∀ (st : RelayState) (l : Str) (fs : List (Str × Json)) (m : Str),
       st.isClosed = false → isPre dataPre l = true →
       jsTrim (l.drop 6) ≠ doneLit →
       jsonParse (jsTrim (l.drop 6)) = some (Json.obj fs) →
       lookupField fs ("error".toList) = some (Json.str m) →
       processLine st l = (safeEnqueue st (sseFrame (Json.obj fs)), false) ∧
       (processLine st l).1.closeCalls = st.closeCalls) := by
  constructor
  · intro st l fs m hopen hne hnp hjson _
    have h1 : processLine st l = (safeEnqueue st (sseFrame (Json.obj fs)), false) := by
      simp [processLine, hne, hopen, hnp, hjson]
    exact ⟨h1, by rw [h1]; exact safeEnqueue_closeCalls st _⟩
  · intro st l fs m hopen hpre hnd hjson _
    have hne : l ≠ [] := by
      intro h
      subst h
      simp [isPre, dataPre] at hpre
    have h1 : processLine st l = (safeEnqueue st (sseFrame (Json.obj fs)), false) := by
      simp [processLine, hne, hopen, hpre, hnd, hjson]
    exact ⟨h1, by rw [h1]; exact safeEnqueue_closeCalls st _⟩

/-- C5 witness: a concrete error line in bare-JSON form. -/
theorem c5_error_line_forwarded_witness :
    (initState []).isClosed = false ∧
    ("\x7b\"error\":\"X\"\x7d".toList ≠ ([] : Str)) ∧
    isPre dataPre ("\x7b\"error\":\"X\"\x7d".toList) = false ∧
    jsonParse ("\x7b\"error\":\"X\"\x7d".toList) =
      some (Json.obj [("error".toList, Json.str ("X".toList))]) ∧
    lookupField [("error".toList, Json.str ("X".toList))] ("error".toList) =
      some (Json.str ("X".toList)) ∧
    (processLine (initState []) ("\x7b\"error\":\"X\"\x7d".toList) =
       (safeEnqueue (initState [])
         (sseFrame (Json.obj [("error".toList, Json.str ("X".toList))])), false) ∧
     (processLine (initState []) ("\x7b\"error\":\"X\"\x7d".toList)).1.closeCalls =
       (initState []).closeCalls) :=
  ⟨rfl, by decide, by decide, rfl, rfl,
   c5_error_line_forwarded.1 (initState []) ("\x7b\"error\":\"X\"\x7d".toList)
     [("error".toList, Json.str ("X".toList))] ("X".toList)
     rfl (by decide) (by decide) rfl rfl⟩

/-- C7 counterexample: the line data: notjson has a non-empty payload
and original text, the payload fails to parse as JSON, and yet the
relay drops the line (state unchanged, nothing emitted) instead of
wrapping the text verbatim as a canonical text-delta event: the
plain-text fallback does not apply to data:-prefixed lines. -/
theorem c7_data_malformed_dropped_counterexample :
    jsonParse (jsTrim (("data: notjson".toList).drop 6)) = none ∧
    jsTrim ("data: notjson".toList) ≠ [] ∧
    processLine (initState []) ("data: notjson".toList) = (initState [], false) ∧
    (processLine (initState []) ("data: notjson".toList)).1.output = [] :=
  ⟨rfl, by decide, rfl, rfl⟩

/-- C7 amended: the verbatim plain-text wrap applies exactly to lines
not prefixed data: — for every processed non-data: line whose text
fails to parse as JSON and is non-blank, the relay emits the original
text verbatim as one canonical text-delta frame; a malformed payload
of a data:-prefixed line is silently dropped (see the
counterexample). -/
theorem c7_plain_text_wrapped (st : RelayState) (l : Str)
    (hopen : st.isClosed = false)
    (hnp : isPre dataPre l = false)
    (hfail : jsonParse l = none)
    (hnb : jsTrim l ≠ []) :
    processLine st l = (safeEnqueue st (sseFrame (textDeltaEvent l)), false) := by
  have hne : l ≠ [] := by
    intro h
    subst h
    exact hnb rfl
  simp [processLine, hne, hopen, hnp, hfail, hnb]

/-- C7 witness: a concrete plain-text line. -/
theorem c7_plain_text_wrapped_witness :
    (initState []).isClosed = false ∧
    isPre dataPre ("hello".toList) = false ∧
    jsonParse ("hello".toList) = none ∧
    jsTrim ("hello".toList) ≠ [] ∧
    processLine (initState []) ("hello".toList) =
      (safeEnqueue (initState []) (sseFrame (textDeltaEvent ("hello".toList))), false) :=
  ⟨rfl, by decide, rfl, by decide,
   c7_plain_text_wrapped (initState []) ("hello".toList) rfl (by decide) rfl (by decide)⟩

/-- C4 counterexample: for the specified end-to-end exchange (prompt
hello, valid tokens, upstream emitting the two deltas then the
sentinel) the client-accumulated message is not exactly Hi there:
the POST handler writes a hard-coded test event first, and the client
accumulates its text too. -/
theorem c4_end_to_end_counterexample : e2eAccum ≠ ("Hi there".toList) := by decide

/-- C4 amended: the client-accumulated message is the hard-coded test
text followed by Hi there, and the downstream stream is closed
(exactly one close). -/
theorem c4_end_to_end_amended :
    e2eAccum = ("🔧 Testing connection to AgentCore... Hi there".toList) ∧
    e2eServer.isClosed = true ∧ e2eServer.closeCalls = 1 :=
  ⟨rfl, rfl, rfl⟩

/-- C6 (code-bug evidence): extractMessageContent deliberately raises
the canonical error signal, but its only caller wraps it in the same
try/catch that ignores JSON parse failures, so the signal is
swallowed: for a downstream body containing a canonical error event
followed by a text delta, the client ignores the error, keeps
consuming that request, and completes normally with the later delta
accumulated — no dedicated error state and no stop. -/
theorem c6_error_signal_swallowed :
    extractMessageContent (Json.obj [("error".toList, Json.str ("boom".toList))]) =
      Except.error ("boom".toList) ∧
    jsonParse ("\x7b\"error\":\"boom\"\x7d".toList) =
      some (Json.obj [("error".toList, Json.str ("boom".toList))]) ∧
    clientRun
      [("data: \x7b\"error\":\"boom\"\x7d\n").toList,
       ("data: \x7b\"event\":\x7b\"contentBlockDelta\":\x7b\"delta\":\x7b\"text\":\"Hi\"\x7d\x7d\x7d\x7d\n").toList] =
      ("Hi".toList) :=
  ⟨rfl, rfl, rfl⟩

/-- C8 counterexample: on the natural end-of-stream exit and on the
sentinel exit the relay returns with the reader lock still held;
releaseLock is reached only in the catch block. -/
theorem c8_reader_release_counterexample :
    ((relayReadLoop (initState [])
        ⟨[("data: \x7b\x7d\n").toList], false, []⟩).readerReleased = false ∧
     (relayReadLoop (initState [])
        ⟨[("data: \x7b\x7d\n").toList], false, []⟩).thrown = none ∧
     (relayReadLoop (initState [])
        ⟨[("data: \x7b\x7d\n").toList], false, []⟩).st.closeCalls = 1) ∧
    ((relayReadLoop (initState [])
        ⟨[("data: [DONE]\n").toList], false, []⟩).readerReleased = false ∧
     (relayReadLoop (initState [])
        ⟨[("data: [DONE]\n").toList], false, []⟩).thrown = none ∧
     (relayReadLoop (initState [])
        ⟨[("data: [DONE]\n").toList], false, []⟩).st.closeCalls = 1) :=
  ⟨⟨rfl, rfl, rfl⟩, ⟨rfl, rfl, rfl⟩⟩

/-- C8 amended: the reader acquired on the upstream body is released
exactly on the error path — the relay releases the lock if and only
if it rethrows an error; the natural end-of-stream and
sentinel-triggered exits return with the lock unreleased. -/
theorem c8_reader_released_iff_error (st0 : RelayState) (u : Upstream) :
    (relayReadLoop st0 u).readerReleased = true ↔
      (relayReadLoop st0 u).thrown ≠ none := by
  simp only [relayReadLoop]
  split
  · simp
  · split
    · simp
    · simp

/-- C8 amended witness: a concrete run whose pending read rejects. -/
theorem c8_reader_released_iff_error_witness :
    (relayReadLoop (initState [])
        ⟨["x\n".toList], true, "boom".toList⟩).readerReleased = true ↔
      (relayReadLoop (initState [])
        ⟨["x\n".toList], true, "boom".toList⟩).thrown ≠ none :=
  c8_reader_released_iff_error (initState []) ⟨["x\n".toList], true, "boom".toList⟩

theorem sendMessage_fail_lt (mR rD : Nat) (out : Nat → AttemptOutcome) (p msg : Str)
    (r : Nat) (hout : out r = AttemptOutcome.failure msg) (hlt : r < mR) :
    sendMessage mR rD out p r =
      { prompts := p :: (sendMessage mR rD out p (r + 1)).prompts,
        delays := rD * 2 ^ r :: (sendMessage mR rD out p (r + 1)).delays,
        errorState := (sendMessage mR rD out p (r + 1)).errorState,
        finalMessage := (sendMessage mR rD out p (r + 1)).finalMessage } := by
  rw [sendMessage, hout]
  simp [hlt]

theorem sendMessage_fail_exhausted (mR rD : Nat) (out : Nat → AttemptOutcome)
    (p msg : Str) (r : Nat) (hout : out r = AttemptOutcome.failure msg)
    (hge : ¬ r < mR) :
    sendMessage mR rD out p r =
      { prompts := [p], delays := [],
        errorState := some ("Communication error: ".toList ++ msg),
        finalMessage := none } := by
  rw [sendMessage, hout]
  simp [hge]

/-- C9: on a thrown fetch failure (non-success HTTP status or network
failure) with retries remaining, sendMessage schedules exactly one
retry, delayed retryDelay * 2 ^ retryCount and reusing the same
prompt; on a failure once the budget is exhausted it sets the
terminal UI error state and schedules nothing further; in particular
three consecutive transport failures against maxRetries = 2 end in a
terminal UI error after exactly three attempts of the same prompt
with backoff delays retryDelay and retryDelay * 2. -/
theorem c9_retry_backoff :
    (∀ (mR rD : Nat) (out : Nat → AttemptOutcome) (p msg : Str) (r : Nat),
       out r = AttemptOutcome.failure msg → r < mR →
       sendMessage mR rD out p r =
         { prompts := p :: (sendMessage mR rD out p (r + 1)).prompts,
           delays := rD * 2 ^ r :: (sendMessage mR rD out p (r + 1)).delays,
           errorState := (sendMessage mR rD out p (r + 1)).errorState,
           finalMessage := (sendMessage mR rD out p (r + 1)).finalMessage }) ∧
    (∀ (mR rD : Nat) (out : Nat → AttemptOutcome) (p msg : Str) (r : Nat),
       out r = AttemptOutcome.failure msg → ¬ r < mR →
       sendMessage mR rD out p r =
         { prompts := [p], delays := [],
           errorState := some ("Communication error: ".toList ++ msg),
           finalMessage := none }) ∧
    (∀ (rD : Nat) (p msg : Str),
       sendMessage 2 rD (fun _ => AttemptOutcome.failure msg) p 0 =
         { prompts := [p, p, p], delays := [rD * 1, rD * 2],
           errorState := some ("Communication error: ".toList ++ msg),
           finalMessage := none }) := by
  refine ⟨sendMessage_fail_lt, sendMessage_fail_exhausted, ?_⟩
  intro rD p msg
  have h0 := sendMessage_fail_lt 2 rD (fun _ => AttemptOutcome.failure msg) p msg 0
    rfl (by norm_num)
  have h1 := sendMessage_fail_lt 2 rD (fun _ => AttemptOutcome.failure msg) p msg 1
    rfl (by norm_num)
  have h2 := sendMessage_fail_exhausted 2 rD (fun _ => AttemptOutcome.failure msg) p msg 2
    rfl (by norm_num)
  rw [h0, h1, h2]
  simp [pow_zero, pow_one]

/-- C9 witness: the conjuncts at concrete attempts. -/
theorem c9_retry_backoff_witness :
    sendMessage 2 1000 (fun _ => AttemptOutcome.failure ("x".toList)) ("hello".toList) 0 =
      { prompts := "hello".toList ::
          (sendMessage 2 1000 (fun _ => AttemptOutcome.failure ("x".toList))
            ("hello".toList) 1).prompts,
        delays := 1000 * 2 ^ 0 ::
          (sendMessage 2 1000 (fun _ => AttemptOutcome.failure ("x".toList))
            ("hello".toList) 1).delays,
        errorState := (sendMessage 2 1000 (fun _ => AttemptOutcome.failure ("x".toList))
            ("hello".toList) 1).errorState,
        finalMessage := (sendMessage 2 1000 (fun _ => AttemptOutcome.failure ("x".toList))
            ("hello".toList) 1).finalMessage } ∧
    sendMessage 2 1000 (fun _ => AttemptOutcome.failure ("x".toList)) ("hello".toList) 2 =
      { prompts := ["hello".toList], delays := [],
        errorState := some ("Communication error: ".toList ++ "x".toList),
        finalMessage := none } ∧
    sendMessage 2 1000 (fun _ => AttemptOutcome.failure ("x".toList)) ("hello".toList) 0 =
      { prompts := ["hello".toList, "hello".toList, "hello".toList],
        delays := [1000 * 1, 1000 * 2],
        errorState := some ("Communication error: ".toList ++ "x".toList),
        finalMessage := none } :=
  ⟨c9_retry_backoff.1 2 1000 (fun _ => AttemptOutcome.failure ("x".toList))
     ("hello".toList) ("x".toList) 0 rfl (by norm_num),
   c9_retry_backoff.2.1 2 1000 (fun _ => AttemptOutcome.failure ("x".toList))
     ("hello".toList) ("x".toList) 2 rfl (by norm_num),
   c9_retry_backoff.2.2 1000 ("hello".toList) ("x".toList)⟩

theorem outExt_head {s t : RelayState} (h : OutExt s t) (x : Str)
    (hs : s.output = [x]) : t.output.head? = some x := by
  obtain ⟨d, hd⟩ := h
  rw [hd, hs]
  simp

/-- C10: for every request that passed token and prompt validation,
whatever the upstream connection outcome (including a connection that
fails before streaming), provided the first downstream write does not
itself fail, the first event written to the downstream stream is the
hard-coded test frame — it is enqueued before any connection to the
upstream service is attempted, so every successfully streamed
response body begins with this fixed event. -/
theorem c10_test_event_first (sched : List Bool) (conn : UpstreamConn)
    (h : sched.headD false = false) :
    (postRun sched conn).output.head? = some testFrame := by
  have h' : sched.head?.getD false = false := by
    simpa [List.headD_eq_head?_getD] using h
  have he0 : enqueueDirect (initState sched) testFrame =
      ({ isClosed := false, closeCalls := 0, enqueueAttempts := 1,
         output := [testFrame], enqueueFail := sched.tail }, false) := by
    simp [enqueueDirect, initState, h']
  have base : OutExt
      ({ isClosed := false, closeCalls := 0, enqueueAttempts := 1,
         output := [testFrame], enqueueFail := sched.tail } : RelayState)
      (streamFromAgentCore
        { isClosed := false, closeCalls := 0, enqueueAttempts := 1,
          output := [testFrame], enqueueFail := sched.tail } conn).st :=
    outExt_streamFromAgentCore _ conn
  simp only [postRun, he0]
  rw [if_neg (by simp : ¬ ((false : Bool) = true))]
  rcases hthr : (streamFromAgentCore
      { isClosed := false, closeCalls := 0, enqueueAttempts := 1,
        output := [testFrame], enqueueFail := sched.tail } conn).thrown with _ | msg
  · simp only [hthr]
    exact outExt_head base testFrame rfl
  · simp only [hthr]
    split
    · exact outExt_head (outExt_trans base (outExt_enqueueDirect _ _)) testFrame rfl
    · exact outExt_head
        (outExt_trans (outExt_trans base (outExt_enqueueDirect _ _)) (outExt_closeDirect _))
        testFrame rfl

/-- C10 witness: an empty failure schedule and a failing upstream
connection. -/
theorem c10_test_event_first_witness :
    ([] : List Bool).headD false = false ∧
    (postRun [] (UpstreamConn.netError ("x".toList))).output.head? = some testFrame :=
  ⟨rfl, c10_test_event_first [] (UpstreamConn.netError ("x".toList)) rfl⟩

end AgentRelay
